import Mathlib

/-!
Verification of the incident-store / similarity-ranker / ingestion /
pattern-analyzer core of the inc-jira-updater repository.

The Python sources are shallowly embedded as Lean functions:

* floating-point numbers are modelled as rationals; the result of the
  `cosine_similarity` UDF (src/jira_updater_enhanced.py line 41-43,
  src/jira_updater.py line 27-29) is a `SimResult`, whose constructor
  `score n d` denotes the real value `n / Real.sqrt d` (with `d > 0`),
  `nan` denotes the IEEE NaN produced by `0.0 / 0.0` when either vector
  has zero magnitude, and `err` denotes the exception `np.dot` raises on
  arrays of different lengths;
* the DuckDB query `ORDER BY similarity DESC LIMIT k` in
  `search_similar_incidents` fixes the row order only up to ties in the
  sort key, so the ranker is modelled relationally by `SearchOutcome`
  (DuckDB orders floating NaN above every number, which is reflected in
  `simGeB`); the Python-side threshold filter runs after the limit, as
  in the source;
* `executemany` over the `INSERT` statement of `insert_incidents`
  (src/excel_to_db_processor.py line 177-219) executes one
  auto-committed single-row insert per record; a primary-key violation
  raises, aborting the remaining records while the rows already
  inserted stay in place.
-/

namespace IncUpdater

/-! ### Cosine similarity -/

/-- `np.dot` of two equal-length vectors. -/
def dot (a b : List ℚ) : ℚ := (List.zipWith (· * ·) a b).sum

/-- Squared euclidean norm; `np.linalg.norm v = Real.sqrt (normSq v)`. -/
def normSq (v : List ℚ) : ℚ := dot v v

/-- Value of one `cosine_similarity(a, b)` call: an exception (`err`,
raised by `np.dot` on a length mismatch), NaN (`nan`, the result of the
`0.0 / 0.0` division when either norm is zero), or the real number
`num / Real.sqrt denSq` with `denSq > 0`. -/
inductive SimResult where
  | err : SimResult
  | nan : SimResult
  | score (num denSq : ℚ) : SimResult
deriving DecidableEq

/-- `cosine_similarity(a, b) = np.dot(a, b) / (np.linalg.norm(a) * np.linalg.norm(b))`
(src/jira_updater_enhanced.py line 41-43 and src/jira_updater.py line
27-29).  When either vector is all zeros the numerator is `0` and the
denominator is `0.0`, so numpy yields NaN; mismatched lengths make
`np.dot` raise. -/
def cosine_similarity (a b : List ℚ) : SimResult :=
  if a.length ≠ b.length then .err
  else if normSq a = 0 ∨ normSq b = 0 then .nan
  else .score (dot a b) (normSq a * normSq b)

/-- Whether a `SimResult` is the numeric score `0`. -/
def isZeroScore : SimResult → Bool
  | .score n _ => n = 0
  | _ => false

/-- Decide `t * Real.sqrt d ≤ n` for `d > 0` by rational arithmetic. -/
def ratGeSqrt (n t d : ℚ) : Bool :=
  if t ≤ 0 then (0 ≤ n) || (n * n ≤ t * t * d)
  else (0 < n) && (t * t * d ≤ n * n)

/-- Decide `n2 / Real.sqrt d2 ≤ n1 / Real.sqrt d1` for `d1, d2 > 0` by
rational arithmetic. -/
def scoreGe (n1 d1 n2 d2 : ℚ) : Bool :=
  if 0 ≤ n1 then (n2 ≤ 0) || (n2 * n2 * d1 ≤ n1 * n1 * d2)
  else (n2 < 0) && (n1 * n1 * d2 ≤ n2 * n2 * d1)

/-- The Python filter `row[8] >= threshold`: false for NaN (any IEEE
comparison with NaN is false); never reached for `err`. -/
def geThreshold : SimResult → ℚ → Bool
  | .nan, _ => false
  | .err, _ => false
  | .score n d, t => ratGeSqrt n t d

/-- The DuckDB `ORDER BY similarity DESC` comparison, as a `≥` on
similarity values: DuckDB places NaN above every number.  The `err`
cases are arbitrary (a raising row aborts the whole query, which
`SearchOutcome` rules out). -/
def simGeB : SimResult → SimResult → Bool
  | .err, _ => true
  | _, .err => true
  | .nan, _ => true
  | .score _ _, .nan => false
  | .score n1 d1, .score n2 d2 => scoreGe n1 d1 n2 d2

/-! ### Similarity ranker -/

/-- One row of the `incidents` table as used by the ranker: the `INC`
key and the stored `vector` column. -/
structure Row where
  inc : String
  vec : List ℚ
deriving DecidableEq

/-- The similarity column computed for a row:
`cosine_similarity(vector, query)`. -/
def scoreRow (q : List ℚ) (r : Row) : SimResult := cosine_similarity r.vec q

/-- Row comparison realising `ORDER BY similarity DESC`. -/
def rowGe (q : List ℚ) (r1 r2 : Row) : Prop :=
  simGeB (scoreRow q r1) (scoreRow q r2) = true

/-- The possible results of `search_similar_incidents`
(src/jira_updater_enhanced.py line 45-84, src/jira_updater.py line
31-65) on a given table, query vector, threshold and limit: no row may
raise inside the UDF, the SQL engine returns the first `limit` rows of
some permutation of the table that is sorted by similarity descending
(ties are not constrained — the query has no secondary sort key), and
the Python loop then keeps the rows with `similarity >= threshold`. -/
def SearchOutcome (store : List Row) (q : List ℚ) (threshold : ℚ) (limit : ℕ)
    (out : List Row) : Prop :=
  (∀ r ∈ store, scoreRow q r ≠ .err) ∧
  ∃ p : List Row, store.Perm p ∧ List.Pairwise (rowGe q) p ∧
    out = (p.take limit).filter (fun r => geThreshold (scoreRow q r) threshold)

/-! ### Ingestion pipeline -/

/-- A candidate spreadsheet row, reduced to the fields the pipeline
keys on: the stringified `INC` cell and the `Short Desc` cell. -/
structure RawRow where
  inc : String
  desc : String
deriving DecidableEq

/-- A record prepared for insertion (`prepare_incident_data` output). -/
structure Prepared where
  inc : String
  desc : String
  vector : List ℚ
deriving DecidableEq

/-- The `incidents` table as seen by the ingestion pipeline. -/
abbrev Store := List Prepared

/-- `get_existing_incidents` (src/excel_to_db_processor.py line
106-116): the set of stored `INC` keys, as the list of key column
values. -/
def get_existing_incidents (s : Store) : List String := s.map Prepared.inc

/-- One iteration of the `prepare_incident_data` loop
(src/excel_to_db_processor.py line 137-172): skip the row if its key is
already stored, then skip it if the key is empty or the string `"nan"`;
otherwise embed the non-empty description (an empty description gets
the empty list, the value `generate_embedding` is never asked for). -/
def prepRow (embed : String → List ℚ) (existing : List String) (row : RawRow) :
    Option Prepared :=
  if existing.contains row.inc then none
  else if row.inc = "" || row.inc = "nan" then none
  else some ⟨row.inc, row.desc, if row.desc = "" then [] else embed row.desc⟩

/-- `prepare_incident_data` (src/excel_to_db_processor.py line 132-175)
with the embedding provider and the pre-fetched key snapshot as
explicit arguments. -/
def prepare_incident_data (embed : String → List ℚ) (existing : List String)
    (rows : List RawRow) : List Prepared :=
  rows.filterMap (prepRow embed existing)

/-- The stringified keys of a batch that pass `prepare_incident_data`'s
two skip tests against a key snapshot `existing`. -/
def newValidKeys (existing : List String) (rows : List RawRow) : List String :=
  (rows.map RawRow.inc).filter
    (fun k => !(existing.contains k) && !(k = "") && !(k = "nan"))

/-- `insert_incidents` (src/excel_to_db_processor.py line 177-219):
sequential single-row inserts; the first primary-key violation raises
(second component `some` duplicateKey), leaving the records inserted so
far in the table and never reaching the remaining records.  No other
per-record check (in particular no vector-dimension check) exists. -/
def insert_incidents (s : Store) : List Prepared → Store × Option String
  | [] => (s, none)
  | r :: rest =>
    if (get_existing_incidents s).contains r.inc then (s, some r.inc)
    else insert_incidents (s ++ [r]) rest

/-- One ingestion run (`process_excel_to_db` core,
src/excel_to_db_processor.py line 221-253): snapshot the existing keys,
prepare the batch against that snapshot, insert. -/
def run_pipeline (embed : String → List ℚ) (s : Store) (rows : List RawRow) :
    Store × Option String :=
  insert_incidents s (prepare_incident_data embed (get_existing_incidents s) rows)

/-! ### Pattern analyzer -/

/-- A retrieved similar incident, reduced to the fields
`analyze_historical_patterns` reads: key, `Assignee` and `Group`. -/
structure Match where
  inc : String
  assignee : String
  group : String
deriving DecidableEq

/-- Index of the first occurrence of a label in a list (the length of
the list when absent). -/
def firstIdx : List String → String → ℕ
  | [], _ => 0
  | x :: xs, a => if x = a then 0 else firstIdx xs a + 1

/-- Labels of the list not in `seen`, in order of first occurrence. -/
def dedupFirstAux (seen : List String) : List String → List String
  | [] => []
  | x :: xs =>
    if seen.contains x then dedupFirstAux seen xs
    else x :: dedupFirstAux (x :: seen) xs

/-- The labels in order of first occurrence: the iteration order of a
Python dict whose keys were inserted while walking the list. -/
def dedupFirst (l : List String) : List String := dedupFirstAux [] l

/-- One step of Python's `max(keys, key=f)`: the running best is
replaced only on a strict improvement, so the first maximal element
wins. -/
def pyMaxStep (f : String → ℕ) (b k : String) : String :=
  if f b < f k then k else b

/-- `max(patterns.keys(), key=lambda k: len(patterns[k]))`
(src/jira_updater_enhanced.py line 182-183, src/jira_updater.py line
99-100): the dict keys iterate in first-occurrence order of the label
list, the bucket length of a key is its count in the list, and Python's
`max` keeps the first maximum.  The `[]` case is unreachable (the
caller returns early on an empty match list). -/
def pyMaxByCount (L : List String) : String :=
  match dedupFirst L with
  | [] => "Unknown"
  | k :: ks => ks.foldl (pyMaxStep (fun a => L.count a)) k

/-- `Config.MIN_INCIDENTS_FOR_ANALYSIS` (src/config.py line 22). -/
def MIN_INCIDENTS_FOR_ANALYSIS : ℕ := 3

/-- The fields of the dict built by `analyze_historical_patterns` of
src/jira_updater_enhanced.py (line 151-212) that the claims are about. -/
structure Analysis where
  suggested_assignee : String
  suggested_group : String
  confidence_score : ℚ
deriving DecidableEq

/-- `analyze_historical_patterns` (src/jira_updater_enhanced.py line
151-212): empty input returns the initial dict (confidence `0.0`,
suggestions `"Unknown"`); otherwise the most common assignee and group
are chosen by `max` over the pattern dicts, and the confidence is
`min(0.8, len * 0.15)` when `len >= Config.MIN_INCIDENTS_FOR_ANALYSIS`
and `0.3` otherwise. -/
def analyze_historical_patterns (ms : List Match) : Analysis :=
  if ms.isEmpty then ⟨"Unknown", "Unknown", 0⟩
  else
    ⟨pyMaxByCount (ms.map Match.assignee),
     pyMaxByCount (ms.map Match.group),
     if MIN_INCIDENTS_FOR_ANALYSIS ≤ ms.length then
       min (4 / 5) ((ms.length : ℚ) * (3 / 20))
     else 3 / 10⟩

/-- The `confidence_score` computed by `analyze_historical_patterns` of
src/jira_updater.py (line 67-117): it starts at `0.0` and is reassigned
to `min(0.8, len * 0.15)` only in the `len >= 3` branch — there is no
`else` assignment, so below the minimum it stays `0.0`. -/
def basic_confidence (ms : List Match) : ℚ :=
  if ms.isEmpty then 0
  else if 3 ≤ ms.length then min (4 / 5) ((ms.length : ℚ) * (3 / 20)) else 0

/-! ### Web layer and batch processing -/

/-- `Config.SIMILARITY_THRESHOLD` (src/config.py line 20). -/
def SIMILARITY_THRESHOLD : ℚ := 3 / 10

/-- The `threshold` form field of the `/process_issue` route: missing,
present but not a parseable float, or a parsed value. -/
inductive ThresholdForm where
  | absent : ThresholdForm
  | unparseable : ThresholdForm
  | value (t : ℚ) : ThresholdForm
deriving DecidableEq

/-- The threshold `process_issue` (src/web_interface.py line 34-40)
passes on: the configured default when the field is missing or
`float()` raises `ValueError`, and the parsed value unchanged
otherwise — no range check anywhere. -/
def web_threshold : ThresholdForm → ℚ
  | .absent => SIMILARITY_THRESHOLD
  | .unparseable => SIMILARITY_THRESHOLD
  | .value t => t

/-- `results[issue_key] = success` on a Python dict: update in place if
the key is present (keeping its position), append otherwise. -/
def dictInsert (d : List (String × Bool)) (k : String) (v : Bool) :
    List (String × Bool) :=
  if d.any (fun p => p.1 = k) then
    d.map (fun p => if p.1 = k then (k, v) else p)
  else d ++ [(k, v)]

/-- The `try`/`except` around `process_jira_issue`: an exception is
recorded as `False`. -/
def catchBool : Except String Bool → Bool
  | .ok b => b
  | .error _ => false

/-- `batch_process_issues` (src/jira_updater_enhanced.py line 348-360)
with `process_jira_issue` abstracted as a function that either returns
a Bool or raises. -/
def batch_process_issues (process : String → Except String Bool)
    (ks : List String) : List (String × Bool) :=
  ks.foldl (fun d k => dictInsert d k (catchBool (process k))) []

/-! ### Concrete example values used by counterexamples and witnesses -/

/-- An embedding provider returning the one-dimensional vector `[1]`. -/
def exEmbed : String → List ℚ := fun _ => [1]

/-- A batch with an in-batch duplicate key followed by a fresh key. -/
def exRowsC5 : List RawRow := [⟨"I1", "a"⟩, ⟨"I1", "b"⟩, ⟨"I2", "c"⟩]

/-- A batch with pairwise distinct keys. -/
def wRowsC5 : List RawRow := [⟨"I1", "a"⟩, ⟨"I2", "c"⟩]

/-- Prepared record with key `I1`. -/
def p1 : Prepared := ⟨"I1", "a", [1]⟩

/-- A second prepared record with the same key `I1`. -/
def p1b : Prepared := ⟨"I1", "b", [1]⟩

/-- Prepared record with key `I2`. -/
def p2 : Prepared := ⟨"I2", "c", [1]⟩

/-- Prepared record whose description is empty, hence whose vector is
the empty list. -/
def pv0 : Prepared := ⟨"D1", "", []⟩

/-- Prepared record with a two-dimensional vector. -/
def pv2 : Prepared := ⟨"D2", "xy", [1, 1]⟩

/-- A single retrieved match. -/
def m1 : Match := ⟨"i1", "alice", "ops"⟩

/-- Two matches with tied assignee counts, similarity-descending. -/
def msW : List Match := [⟨"i1", "alice", "ops"⟩, ⟨"i2", "bob", "ops"⟩]

/-- Table row with key `A` and vector `[1, 0]`. -/
def rowA : Row := ⟨"A", [1, 0]⟩

/-- Table row with key `B` and the same vector `[1, 0]`. -/
def rowB : Row := ⟨"B", [1, 0]⟩

/-- Single table row for the parameter-validation examples. -/
def rowS : Row := ⟨"S", [1]⟩

/-! ### Ingestion lemmas -/

/-- When every key of the records is fresh and the keys are pairwise
distinct, `insert_incidents` inserts all records in order and reports
no error. -/
theorem insert_all_fresh (rs : List Prepared) : ∀ (s : Store),
    (∀ k ∈ rs.map Prepared.inc, k ∉ get_existing_incidents s) →
    (rs.map Prepared.inc).Nodup →
    insert_incidents s rs = (s ++ rs, none) := by
  induction rs with
  | nil => intro s _ _; simp [insert_incidents]
  | cons r rest ih =>
    intro s hf hnd
    have hr : r.inc ∉ get_existing_incidents s := hf r.inc (by simp)
    have hc : (get_existing_incidents s).contains r.inc = false := by
      simpa using hr
    rw [insert_incidents, hc]
    simp only [Bool.false_eq_true, if_false]
    rw [ih (s ++ [r])]
    · simp
    · intro k hk
      have hks : k ∉ get_existing_incidents s := hf k (by simp [hk])
      have hkr : k ≠ r.inc := by
        simp only [List.map_cons, List.nodup_cons] at hnd
        intro h; exact hnd.1 (h ▸ hk)
      simp only [get_existing_incidents, List.map_append, List.map_cons,
        List.map_nil, List.mem_append, List.mem_cons, List.not_mem_nil,
        or_false, not_or]
      exact ⟨fun h => hks h, hkr⟩
    · simpa using hnd.of_cons

/-- The first record whose key repeats an earlier key (stored or
earlier in the same list) stops `insert_incidents`: the records before
it stay inserted, the error carries the duplicate key, and the records
after it are never attempted. -/
theorem insert_stop_at_dup (pre : List Prepared) :
    ∀ (s : Store) (r : Prepared) (rest : List Prepared),
    (∀ k ∈ pre.map Prepared.inc, k ∉ get_existing_incidents s) →
    (pre.map Prepared.inc).Nodup →
    r.inc ∈ get_existing_incidents s ++ pre.map Prepared.inc →
    insert_incidents s (pre ++ r :: rest) = (s ++ pre, some r.inc) := by
  induction pre with
  | nil =>
    intro s r rest _ _ hdup
    simp only [List.map_nil, List.append_nil] at hdup
    have hc : (get_existing_incidents s).contains r.inc = true := by
      simpa using hdup
    rw [List.nil_append, insert_incidents, hc]
    simp
  | cons p pre ih =>
    intro s r rest hf hnd hdup
    have hp : p.inc ∉ get_existing_incidents s := hf p.inc (by simp)
    have hc : (get_existing_incidents s).contains p.inc = false := by
      simpa using hp
    rw [List.cons_append, insert_incidents, hc]
    simp only [Bool.false_eq_true, if_false]
    rw [ih (s ++ [p])]
    · simp
    · intro k hk
      have hks : k ∉ get_existing_incidents s := hf k (by simp [hk])
      have hkp : k ≠ p.inc := by
        simp only [List.map_cons, List.nodup_cons] at hnd
        intro h; exact hnd.1 (h ▸ hk)
      simp only [get_existing_incidents, List.map_append, List.map_cons,
        List.map_nil, List.mem_append, List.mem_cons, List.not_mem_nil,
        or_false, not_or]
      exact ⟨fun h => hks h, hkp⟩
    · simpa using hnd.of_cons
    · have : get_existing_incidents (s ++ [p]) =
          get_existing_incidents s ++ [p.inc] := by
        simp [get_existing_incidents]
      rw [this]
      simp only [List.map_cons] at hdup
      simp only [List.mem_append, List.mem_cons, List.mem_singleton] at hdup ⊢
      tauto

/-- The keys of the prepared records are exactly the batch keys that
pass the two skip tests, every occurrence included and in order: the
pipeline performs no de-duplication within the batch. -/
theorem prepare_keys (e : String → List ℚ) (ex : List String) :
    ∀ rows, (prepare_incident_data e ex rows).map Prepared.inc
      = newValidKeys ex rows := by
  intro rows
  induction rows with
  | nil => rfl
  | cons row rows ih =>
    simp only [prepare_incident_data, List.filterMap_cons, newValidKeys,
      List.map_cons, List.filter_cons] at *
    by_cases h1 : ex.contains row.inc
    · simp only [prepRow, h1, if_true]
      simpa [h1] using ih
    · by_cases h2 : row.inc = "" ∨ row.inc = "nan"
      · have h2b : (row.inc = "" || row.inc = "nan") = true := by
          simpa using h2
        simp only [prepRow, h1, Bool.false_eq_true, if_false, h2b, if_true]
        rcases h2 with h | h <;> simpa [h1, h] using ih
      · have h2b : (row.inc = "" || row.inc = "nan") = false := by
          simpa using h2
        push_neg at h2
        simp only [prepRow, h1, Bool.false_eq_true, if_false, h2b,
          List.filterMap_cons]
        simpa [h1, h2.1, h2.2] using congrArg (List.cons row.inc) ih

/-- When every batch row is either already stored or has an invalid
key, `prepare_incident_data` prepares nothing. -/
theorem prepare_eq_nil (e : String → List ℚ) (ex : List String)
    (rows : List RawRow)
    (h : ∀ row ∈ rows, row.inc ∈ ex ∨ row.inc = "" ∨ row.inc = "nan") :
    prepare_incident_data e ex rows = [] := by
  induction rows with
  | nil => rfl
  | cons row rows ih =>
    have hrow := h row (by simp)
    have hrest : ∀ r ∈ rows, r.inc ∈ ex ∨ r.inc = "" ∨ r.inc = "nan" :=
      fun r hr => h r (by simp [hr])
    simp only [prepare_incident_data, List.filterMap_cons] at *
    rcases hrow with hm | hv | hv
    · simp [prepRow, hm, ih hrest]
    · simp [prepRow, hv, ih hrest]
    · simp [prepRow, hv, ih hrest]

/-! ### Claim C1: zero-magnitude vectors -/

/-- Claim C1 (counterexample): the claim that a zero-magnitude stored
vector yields the numeric score `0` and never an error or non-numeric
value is false: against the query `[1, 0]` an all-zero stored vector
yields NaN (the `0.0 / 0.0` division), not the score `0`, and a stored
empty vector makes `np.dot` raise. -/
theorem C1_counterexample :
    cosine_similarity [0, 0] [1, 0] = SimResult.nan ∧
    isZeroScore (cosine_similarity [0, 0] [1, 0]) = false ∧
    cosine_similarity ([] : List ℚ) [1, 0] = SimResult.err := by
  have h : cosine_similarity [0, 0] [1, 0] = SimResult.nan := by
    simp [cosine_similarity, normSq, dot]
  exact ⟨h, by rw [h]; rfl, by simp [cosine_similarity]⟩

/-- Claim C1 (amended): `cosine_similarity` divides unconditionally,
so whenever the two vectors have equal length and either has zero
magnitude the result is the non-numeric NaN (never the score `0` and
never an exception); an empty stored vector against a nonempty query
instead raises, because `np.dot` rejects the length mismatch. -/
theorem C1_amended (a b : List ℚ) (hlen : a.length = b.length)
    (h : normSq a = 0 ∨ normSq b = 0) :
    cosine_similarity a b = SimResult.nan := by
  simp [cosine_similarity, hlen, h]

/-- Witness for `C1_amended` at the zero vector `[0, 0]` and the query
`[1, 2]`. -/
theorem C1_witness :
    ([0, 0] : List ℚ).length = ([1, 2] : List ℚ).length ∧
    cosine_similarity [0, 0] [1, 2] = SimResult.nan :=
  ⟨rfl, C1_amended [0, 0] [1, 2] rfl (Or.inl (by norm_num [normSq, dot]))⟩

/-! ### Claim C3: in-batch duplicate keys -/

/-- Claim C3 (counterexample): the claim that at most one record per
key is handed to the store is false: a batch with two rows keyed `I1`
(none stored yet) prepares two records with that key. -/
theorem C3_counterexample :
    ¬ (((prepare_incident_data exEmbed []
          [⟨"I1", "a"⟩, ⟨"I1", "b"⟩]).map Prepared.inc).count "I1" ≤ 1) := by
  have h : (prepare_incident_data exEmbed []
      [⟨"I1", "a"⟩, ⟨"I1", "b"⟩]).map Prepared.inc = ["I1", "I1"] := by
    simp [prepare_incident_data, prepRow, exEmbed]
  rw [h]
  simp [List.count_cons]

/-- Claim C3 (amended): `prepare_incident_data` performs no
de-duplication within the batch: its output keys are exactly the batch
keys that are not in the pre-fetched snapshot and are neither empty nor
`"nan"` — every occurrence of a repeated new key included, in batch
order. -/
theorem C3_amended (e : String → List ℚ) (ex : List String)
    (rows : List RawRow) :
    (prepare_incident_data e ex rows).map Prepared.inc = newValidKeys ex rows :=
  prepare_keys e ex rows

/-! ### Claim C4: batch insert failure semantics -/

/-- Claim C4 (counterexample): the claim that a per-record failure does
not abort the remaining inserts is false: inserting
`[p1, p1b, p2]` (where `p1b` repeats the key of `p1`) into the empty
store stops at `p1b` with a raised duplicate-key error, `p2` is never
inserted, and no per-key success/failure report is produced. -/
theorem C4_counterexample :
    insert_incidents [] [p1, p1b, p2] = ([p1], some "I1") ∧
    ((insert_incidents [] [p1, p1b, p2]).1.map Prepared.inc).contains "I2"
      = false := by
  have h : insert_incidents [] [p1, p1b, p2] = ([p1], some "I1") := by
    simp [insert_incidents, get_existing_incidents, p1, p1b, p2]
  exact ⟨h, by rw [h]; simp [p1]⟩

/-- Claim C4 (amended): `insert_incidents` applies single-row inserts
in order; the first record whose key duplicates a stored key or an
earlier key of the same batch raises, leaving the records before it
inserted and never attempting the ones after it, and the only failure
information is the raised duplicate key — there is no per-key report. -/
theorem C4_amended (s : Store) (pre : List Prepared) (r : Prepared)
    (rest : List Prepared)
    (hf : ∀ k ∈ pre.map Prepared.inc, k ∉ get_existing_incidents s)
    (hnd : (pre.map Prepared.inc).Nodup)
    (hdup : r.inc ∈ get_existing_incidents s ++ pre.map Prepared.inc) :
    insert_incidents s (pre ++ r :: rest) = (s ++ pre, some r.inc) :=
  insert_stop_at_dup pre s r rest hf hnd hdup

/-- Witness for `C4_amended`: the duplicate `p1b` after `p1` aborts the
batch before `p2`. -/
theorem C4_witness :
    insert_incidents [] ([p1] ++ p1b :: [p2]) = ([] ++ [p1], some p1b.inc) :=
  C4_amended [] [p1] p1b [p2]
    (by simp [get_existing_incidents])
    (by simp)
    (by simp [get_existing_incidents, p1, p1b])

/-! ### Claim C6: confidence score -/

/-- Claim C6 (counterexample): the claim that every match count below
the minimum yields confidence `0.3` is false: the enhanced analyzer
returns `0.0` on the empty list (early return), and the basic analyzer
of src/jira_updater.py leaves the confidence at `0.0` for every count
below `3` — it never assigns `0.3`. -/
theorem C6_counterexample :
    (analyze_historical_patterns []).confidence_score = 0 ∧
    (analyze_historical_patterns []).confidence_score ≠ 3 / 10 ∧
    basic_confidence [m1] = 0 ∧ basic_confidence [m1] ≠ 3 / 10 := by
  have h1 : (analyze_historical_patterns []).confidence_score = 0 := rfl
  have h2 : basic_confidence [m1] = 0 := by
    norm_num [basic_confidence]
  exact ⟨h1, by rw [h1]; norm_num, h2, by rw [h2]; norm_num⟩

/-- Claim C6 (amended): for a nonempty match list the enhanced
analyzer's confidence is `min(0.8, count * 0.15)` when the count is at
least `Config.MIN_INCIDENTS_FOR_ANALYSIS` and `0.3` below it, while the
empty list gets `0.0`; the basic analyzer of src/jira_updater.py
returns `0.0` (not `0.3`) for every count below `3`. -/
theorem C6_amended (ms : List Match) :
    (ms ≠ [] → MIN_INCIDENTS_FOR_ANALYSIS ≤ ms.length →
      (analyze_historical_patterns ms).confidence_score
        = min (4 / 5) ((ms.length : ℚ) * (3 / 20))) ∧
    (ms ≠ [] → ms.length < MIN_INCIDENTS_FOR_ANALYSIS →
      (analyze_historical_patterns ms).confidence_score = 3 / 10) ∧
    (ms.length < 3 → basic_confidence ms = 0) ∧
    (analyze_historical_patterns []).confidence_score = 0 := by
  refine ⟨?_, ?_, ?_, rfl⟩
  · intro hne hc
    simp [analyze_historical_patterns, List.isEmpty_iff, hne, hc]
  · intro hne hc
    simp [analyze_historical_patterns, List.isEmpty_iff, hne,
      Nat.not_le.mpr hc]
  · intro hc
    rcases List.eq_nil_or_concat ms with h | _
    · simp [basic_confidence, h]
    · by_cases hne : ms = []
      · simp [basic_confidence, hne]
      · simp [basic_confidence, List.isEmpty_iff, hne, Nat.not_le.mpr hc]

/-- Witness for `C6_amended`: one match is nonempty and below the
minimum, and gets confidence `0.3` from the enhanced analyzer. -/
theorem C6_witness :
    ([m1] ≠ ([] : List Match)) ∧
    (analyze_historical_patterns [m1]).confidence_score = 3 / 10 :=
  ⟨by simp, (C6_amended [m1]).2.1 (by simp)
    (by norm_num [MIN_INCIDENTS_FOR_ANALYSIS])⟩

/-! ### Claim C7: embedding dimensionality -/

/-- Claim C7 (counterexample): the claim that a record whose embedding
length differs from the established dimensionality fails with a
dimension-mismatch error and is not persisted is false: the empty
vector of `pv0` and the two-dimensional vector of `pv2` are both
persisted by one batch with no error of any kind. -/
theorem C7_counterexample :
    insert_incidents [] [pv0, pv2] = ([pv0, pv2], none) ∧
    pv0.vector.length ≠ pv2.vector.length := by
  constructor
  · simp [insert_incidents, get_existing_incidents, pv0, pv2]
  · simp [pv0, pv2]

/-- Claim C7 (amended): `insert_incidents` performs no dimensionality
check at all: any batch of records with fresh, pairwise-distinct keys
is persisted wholesale, whatever the lengths of the individual
embedding vectors (records with an empty description carry the empty
vector). -/
theorem C7_amended (s : Store) (rs : List Prepared)
    (hf : ∀ k ∈ rs.map Prepared.inc, k ∉ get_existing_incidents s)
    (hnd : (rs.map Prepared.inc).Nodup) :
    insert_incidents s rs = (s ++ rs, none) :=
  insert_all_fresh rs s hf hnd

/-- Witness for `C7_amended`: vectors of length `0` and `2` inserted
together. -/
theorem C7_witness :
    insert_incidents [] [pv0, pv2] = ([] ++ [pv0, pv2], none) :=
  C7_amended [] [pv0, pv2]
    (by simp [get_existing_incidents])
    (by simp [pv0, pv2])

/-! ### Claim C5: idempotent re-ingestion -/

/-- Claim C5 (counterexample): the claim that re-running the pipeline
on the same batch changes nothing and inserts zero records is false for
the batch `[I1, I1, I2]` starting from the empty store: the first run
stops at the duplicate `I1` before reaching `I2` (store `[p1]`), so the
second run prepares and inserts `I2` — the store changes and one record
is inserted. -/
theorem C5_counterexample :
    (run_pipeline exEmbed (run_pipeline exEmbed [] exRowsC5).1 exRowsC5).1
      ≠ (run_pipeline exEmbed [] exRowsC5).1 ∧
    prepare_incident_data exEmbed
      (get_existing_incidents (run_pipeline exEmbed [] exRowsC5).1) exRowsC5
      ≠ [] := by
  have h1 : run_pipeline exEmbed [] exRowsC5 = ([p1], some "I1") := by
    simp [run_pipeline, prepare_incident_data, prepRow, insert_incidents,
      get_existing_incidents, exEmbed, exRowsC5, p1]
  have h2 : prepare_incident_data exEmbed (get_existing_incidents [p1]) exRowsC5
      = [p2] := by
    simp [prepare_incident_data, prepRow, get_existing_incidents, exEmbed,
      exRowsC5, p1, p2]
  have h3 : run_pipeline exEmbed [p1] exRowsC5 = ([p1, p2], none) := by
    rw [run_pipeline, h2]
    simp [insert_incidents, get_existing_incidents, p1, p2]
  rw [h1]
  rw [show ([p1], some "I1").1 = [p1] from rfl, h3, h2]
  constructor
  · intro h
    have := congrArg List.length (show ([p1, p2], (none : Option String)).1
      = [p1] from h)
    simp at this
  · simp

/-- Claim C5 (amended): for a batch whose valid new keys are pairwise
distinct (no in-batch duplicate among the keys that pass the skip
tests), the first run inserts exactly the prepared records with no
error, the second run on the same batch prepares nothing, inserts
nothing and leaves the store unchanged, and every batch row with a
usable key is skipped because its key is by then stored. -/
theorem C5_amended (e : String → List ℚ) (s : Store) (rows : List RawRow)
    (hnd : (newValidKeys (get_existing_incidents s) rows).Nodup) :
    run_pipeline e s rows
      = (s ++ prepare_incident_data e (get_existing_incidents s) rows, none) ∧
    prepare_incident_data e
      (get_existing_incidents (run_pipeline e s rows).1) rows = [] ∧
    run_pipeline e (run_pipeline e s rows).1 rows
      = ((run_pipeline e s rows).1, none) ∧
    ∀ row ∈ rows, row.inc = "" ∨ row.inc = "nan" ∨
      row.inc ∈ get_existing_incidents (run_pipeline e s rows).1 := by
  have hkeys : (prepare_incident_data e (get_existing_incidents s) rows).map
      Prepared.inc = newValidKeys (get_existing_incidents s) rows :=
    prepare_keys e (get_existing_incidents s) rows
  have hfresh : ∀ k ∈ (prepare_incident_data e (get_existing_incidents s)
      rows).map Prepared.inc, k ∉ get_existing_incidents s := by
    rw [hkeys]
    intro k hk
    have := (List.mem_filter.mp hk).2
    simp only [Bool.and_eq_true, Bool.not_eq_true'] at this
    simpa using this.1.1
  have h1 : run_pipeline e s rows
      = (s ++ prepare_incident_data e (get_existing_incidents s) rows, none) :=
    insert_all_fresh _ s hfresh (hkeys ▸ hnd)
  have hex1 : get_existing_incidents (run_pipeline e s rows).1
      = get_existing_incidents s
        ++ newValidKeys (get_existing_incidents s) rows := by
    rw [h1, ← hkeys]
    simp only [get_existing_incidents, List.map_append]
  have hmem : ∀ row ∈ rows, row.inc = "" ∨ row.inc = "nan" ∨
      row.inc ∈ get_existing_incidents (run_pipeline e s rows).1 := by
    intro row hrow
    by_cases hv1 : row.inc = ""
    · exact Or.inl hv1
    by_cases hv2 : row.inc = "nan"
    · exact Or.inr (Or.inl hv2)
    refine Or.inr (Or.inr ?_)
    rw [hex1, List.mem_append]
    by_cases hx : row.inc ∈ get_existing_incidents s
    · exact Or.inl hx
    · refine Or.inr (List.mem_filter.mpr ⟨List.mem_map.mpr ⟨row, hrow, rfl⟩, ?_⟩)
      simp [hx, hv1, hv2]
  have h2 : prepare_incident_data e
      (get_existing_incidents (run_pipeline e s rows).1) rows = [] := by
    refine prepare_eq_nil _ _ _ ?_
    intro row hrow
    rcases hmem row hrow with h | h | h
    · exact Or.inr (Or.inl h)
    · exact Or.inr (Or.inr h)
    · exact Or.inl h
  have h3 : run_pipeline e (run_pipeline e s rows).1 rows
      = ((run_pipeline e s rows).1, none) := by
    rw [run_pipeline, h2]
    rfl
  exact ⟨h1, h2, h3, hmem⟩

/-- Witness for `C5_amended` on the duplicate-free batch `wRowsC5`:
the second run returns the store of the first run unchanged with no
error. -/
theorem C5_witness :
    run_pipeline exEmbed (run_pipeline exEmbed [] wRowsC5).1 wRowsC5
      = ((run_pipeline exEmbed [] wRowsC5).1, none) :=
  (C5_amended exEmbed [] wRowsC5
    (by simp [newValidKeys, get_existing_incidents, wRowsC5])).2.2.1

/-! ### Dict-order lemmas -/

/-- Membership in `dedupFirstAux`: the kept labels are those of the
list that are not in `seen`. -/
theorem mem_dedupFirstAux : ∀ (l seen : List String) (a : String),
    a ∈ dedupFirstAux seen l ↔ a ∈ l ∧ a ∉ seen := by
  intro l
  induction l with
  | nil => intro seen a; simp [dedupFirstAux]
  | cons x xs ih =>
    intro seen a
    by_cases hx : seen.contains x = true
    · have hxm : x ∈ seen := by simpa using hx
      rw [dedupFirstAux, if_pos hx, ih seen a]
      simp only [List.mem_cons]
      constructor
      · exact fun h => ⟨Or.inr h.1, h.2⟩
      · rintro ⟨rfl | h1, h2⟩
        · exact absurd hxm h2
        · exact ⟨h1, h2⟩
    · have hxm : x ∉ seen := by simpa using hx
      rw [dedupFirstAux, if_neg hx]
      simp only [List.mem_cons]
      rw [ih (x :: seen) a]
      simp only [List.mem_cons, not_or]
      constructor
      · rintro (rfl | ⟨h1, h2, h3⟩)
        · exact ⟨Or.inl rfl, hxm⟩
        · exact ⟨Or.inr h1, h3⟩
      · rintro ⟨rfl | h1, h2⟩
        · exact Or.inl rfl
        · by_cases hax : a = x
          · exact Or.inl hax
          · exact Or.inr ⟨h1, hax, h2⟩

/-- `dedupFirstAux` never repeats a label. -/
theorem nodup_dedupFirstAux : ∀ (l seen : List String),
    (dedupFirstAux seen l).Nodup := by
  intro l
  induction l with
  | nil => intro seen; simp [dedupFirstAux]
  | cons x xs ih =>
    intro seen
    by_cases hx : seen.contains x = true
    · rw [dedupFirstAux, if_pos hx]; exact ih seen
    · rw [dedupFirstAux, if_neg hx]
      refine List.nodup_cons.mpr ⟨?_, ih (x :: seen)⟩
      intro hmem
      exact ((mem_dedupFirstAux xs (x :: seen) x).mp hmem).2
        (List.mem_cons_self x seen)

/-- Appending one label to the input extends `dedupFirstAux` by that
label exactly when it is new. -/
theorem dedupFirstAux_append_singleton (k : String) :
    ∀ (l seen : List String),
    dedupFirstAux seen (l ++ [k])
      = dedupFirstAux seen l ++ (if k ∈ seen ∨ k ∈ l then [] else [k]) := by
  intro l
  induction l with
  | nil =>
    intro seen
    by_cases h : k ∈ seen
    · have hc : seen.contains k = true := by simpa using h
      simp [dedupFirstAux, hc, h]
    · have hc : ¬ seen.contains k = true := by simpa using h
      simp [dedupFirstAux, hc, h]
  | cons x xs ih =>
    intro seen
    by_cases hx : seen.contains x = true
    · have hxm : x ∈ seen := by simpa using hx
      rw [List.cons_append, dedupFirstAux, if_pos hx, ih seen,
        dedupFirstAux, if_pos hx]
      by_cases hkx : k = x
      · subst hkx
        simp [hxm]
      · simp only [List.mem_cons]
        congr 2
        simp [hkx]
    · have hxm : x ∉ seen := by simpa using hx
      rw [List.cons_append, dedupFirstAux, if_neg hx, ih (x :: seen),
        dedupFirstAux, if_neg hx, List.cons_append]
      congr 2
      simp only [List.mem_cons]
      by_cases hkx : k = x <;> simp [hkx, or_comm, or_assoc, or_left_comm]

/-- Folding `dictInsert` over issue keys, starting from the dict built
for the keys `L`, yields the dict built for `L ++ ks`: each key holds
the caught result of processing it, in first-occurrence order. -/
theorem batch_foldl (process : String → Except String Bool) :
    ∀ (ks L : List String),
    List.foldl (fun d k => dictInsert d k (catchBool (process k)))
        ((dedupFirst L).map (fun k => (k, catchBool (process k)))) ks
      = (dedupFirst (L ++ ks)).map (fun k => (k, catchBool (process k))) := by
  intro ks
  induction ks with
  | nil => intro L; simp
  | cons k ks ih =>
    intro L
    have hstep : dictInsert
        ((dedupFirst L).map (fun a => (a, catchBool (process a)))) k
        (catchBool (process k))
        = (dedupFirst (L ++ [k])).map (fun a => (a, catchBool (process a))) := by
      by_cases hk : k ∈ L
      · have hkd : k ∈ dedupFirst L := by
          rw [dedupFirst, mem_dedupFirstAux]
          simp [hk]
        have hany : ((dedupFirst L).map
            (fun a => (a, catchBool (process a)))).any (fun p => p.1 = k)
            = true := by
          rw [List.any_eq_true]
          exact ⟨(k, catchBool (process k)),
            List.mem_map.mpr ⟨k, hkd, rfl⟩, by simp⟩
        rw [dictInsert, if_pos hany, List.map_map]
        have hsame : dedupFirst (L ++ [k]) = dedupFirst L := by
          rw [dedupFirst, dedupFirst, dedupFirstAux_append_singleton,
            if_pos (by simp [hk]), List.append_nil]
        rw [hsame]
        refine List.map_congr_left ?_
        intro a _
        by_cases hak : a = k
        · subst hak; simp
        · simp [hak]
      · have hkd : k ∉ dedupFirst L := by
          rw [dedupFirst, mem_dedupFirstAux]
          simp [hk]
        have hany : ((dedupFirst L).map
            (fun a => (a, catchBool (process a)))).any (fun p => p.1 = k)
            = false := by
          rw [Bool.eq_false_iff]
          intro hx
          rcases List.any_eq_true.mp hx with ⟨p, hp, hpk⟩
          rcases List.mem_map.mp hp with ⟨a, ha, rfl⟩
          simp only [decide_eq_true_eq] at hpk
          exact hkd (hpk ▸ ha)
        have hsame : dedupFirst (L ++ [k]) = dedupFirst L ++ [k] := by
          rw [dedupFirst, dedupFirst, dedupFirstAux_append_singleton]
          simp [hk]
        rw [dictInsert, if_neg (by simp [hany]), hsame, List.map_append]
        rfl
    rw [List.foldl_cons, hstep, ih (L ++ [k]), List.append_assoc,
      List.singleton_append]

/-! ### Claim C10: batch processing of issue keys -/

/-- Claim C10: `batch_process_issues` returns one boolean entry per
distinct input key, in first-occurrence order; the entry of each key is
the result of processing it, with any raised exception caught and
recorded as `False` rather than propagated, so one failing issue never
aborts the remaining ones. -/
theorem C10_batch (process : String → Except String Bool) (ks : List String) :
    batch_process_issues process ks
      = (dedupFirst ks).map (fun k => (k, catchBool (process k))) ∧
    ((batch_process_issues process ks).map Prod.fst).Nodup := by
  have h : batch_process_issues process ks
      = (dedupFirst ks).map (fun k => (k, catchBool (process k))) := by
    have hb := batch_foldl process ks []
    simp only [dedupFirst, dedupFirstAux, List.map_nil, List.nil_append] at hb
    exact hb
  refine ⟨h, ?_⟩
  rw [h, List.map_map]
  have hid : ((fun p : String × Bool => p.1) ∘
      (fun k => (k, catchBool (process k)))) = fun k => k := rfl
  rw [hid, List.map_id']
  exact nodup_dedupFirstAux ks []

/-! ### Tie-break lemmas for the pattern analyzer -/

/-- `firstIdx` on a cons whose head is the sought label. -/
theorem firstIdx_cons_self (x : String) (xs : List String) :
    firstIdx (x :: xs) x = 0 := by
  rw [firstIdx, if_pos rfl]

/-- `firstIdx` on a cons whose head differs from the sought label. -/
theorem firstIdx_cons_ne (x : String) (xs : List String) (a : String)
    (h : x ≠ a) : firstIdx (x :: xs) a = firstIdx xs a + 1 := by
  rw [firstIdx, if_neg h]

/-- The fold behind Python's `max(..., key=f)` returns either the seed
(when nothing strictly beats it) or the first strict-improvement list
element that nothing later strictly beats: everything before the winner
has a strictly smaller key, everything after at most an equal one. -/
theorem foldl_pymax_spec (f : String → ℕ) :
    ∀ (xs : List String) (b : String),
    (xs.foldl (pyMaxStep f) b = b ∧ ∀ y ∈ xs, f y ≤ f b) ∨
    (∃ ys r zs, xs = ys ++ r :: zs ∧ xs.foldl (pyMaxStep f) b = r ∧
      f b < f r ∧ (∀ y ∈ ys, f y < f r) ∧ (∀ z ∈ zs, f z ≤ f r)) := by
  intro xs
  induction xs with
  | nil => intro b; exact Or.inl ⟨rfl, by simp⟩
  | cons x xs ih =>
    intro b
    rw [List.foldl_cons]
    by_cases hx : f b < f x
    · rw [show pyMaxStep f b x = x from if_pos hx]
      rcases ih x with ⟨heq, hall⟩ | ⟨ys, r, zs, hsplit, heq, hlt, hys, hzs⟩
      · exact Or.inr ⟨[], x, xs, by simp, heq, hx, by simp, heq ▸ hall⟩
      · refine Or.inr ⟨x :: ys, r, zs, by simp [hsplit], heq,
          hx.trans hlt, ?_, hzs⟩
        intro y hy
        rcases List.mem_cons.mp hy with rfl | hy
        · exact hlt
        · exact hys y hy
    · rw [show pyMaxStep f b x = b from if_neg hx]
      rcases ih b with ⟨heq, hall⟩ | ⟨ys, r, zs, hsplit, heq, hlt, hys, hzs⟩
      · refine Or.inl ⟨heq, ?_⟩
        intro y hy
        rcases List.mem_cons.mp hy with rfl | hy
        · exact Nat.not_lt.mp hx
        · exact hall y hy
      · refine Or.inr ⟨x :: ys, r, zs, by simp [hsplit], heq, hlt, ?_, hzs⟩
        intro y hy
        rcases List.mem_cons.mp hy with rfl | hy
        · exact lt_of_le_of_lt (Nat.not_lt.mp hx) hlt
        · exact hys y hy

/-- For a nonempty key list `d :: ds`, the Python `max` splits the list
around its result: strictly smaller keys before it, at most equal keys
after it — i.e. the first maximum wins. -/
theorem pyMax_split (f : String → ℕ) (d : String) (ds : List String) :
    ∃ ys zs, d :: ds = ys ++ (ds.foldl (pyMaxStep f) d) :: zs ∧
      (∀ y ∈ ys, f y < f (ds.foldl (pyMaxStep f) d)) ∧
      (∀ z ∈ zs, f z ≤ f (ds.foldl (pyMaxStep f) d)) := by
  rcases foldl_pymax_spec f ds d with ⟨heq, hall⟩ |
    ⟨ys, r, zs, hsplit, heq, hlt, hys, hzs⟩
  · exact ⟨[], ds, by rw [heq]; simp, by simp, by rw [heq]; exact hall⟩
  · refine ⟨d :: ys, zs, by rw [heq]; simp [hsplit], ?_, heq ▸ hzs⟩
    intro y hy
    rcases List.mem_cons.mp hy with rfl | hy
    · exact heq ▸ hlt
    · exact heq ▸ hys y hy

/-- The dict keys produced by `dedupFirstAux` are strictly increasing
in index of first occurrence in the label list. -/
theorem pairwise_firstIdx_dedupFirstAux :
    ∀ (l seen : List String),
    List.Pairwise (fun a b => firstIdx l a < firstIdx l b)
      (dedupFirstAux seen l) := by
  intro l
  induction l with
  | nil => intro seen; simp [dedupFirstAux]
  | cons x xs ih =>
    intro seen
    by_cases hx : seen.contains x = true
    · have hxm : x ∈ seen := by simpa using hx
      rw [dedupFirstAux, if_pos hx]
      refine (ih seen).imp_of_mem ?_
      intro a b ha hb hab
      have hax : x ≠ a := fun h =>
        ((mem_dedupFirstAux xs seen a).mp ha).2 (h ▸ hxm)
      have hbx : x ≠ b := fun h =>
        ((mem_dedupFirstAux xs seen b).mp hb).2 (h ▸ hxm)
      rw [firstIdx_cons_ne x xs a hax, firstIdx_cons_ne x xs b hbx]
      exact Nat.succ_lt_succ hab
    · rw [dedupFirstAux, if_neg hx]
      refine List.pairwise_cons.mpr ⟨?_, ?_⟩
      · intro b hb
        have hbx : x ≠ b := fun h =>
          ((mem_dedupFirstAux xs (x :: seen) b).mp hb).2
            (h ▸ List.mem_cons_self x seen)
        rw [firstIdx_cons_self, firstIdx_cons_ne x xs b hbx]
        exact Nat.succ_pos _
      · refine (ih (x :: seen)).imp_of_mem ?_
        intro a b ha hb hab
        have hax : x ≠ a := fun h =>
          ((mem_dedupFirstAux xs (x :: seen) a).mp ha).2
            (h ▸ List.mem_cons_self x seen)
        have hbx : x ≠ b := fun h =>
          ((mem_dedupFirstAux xs (x :: seen) b).mp hb).2
            (h ▸ List.mem_cons_self x seen)
        rw [firstIdx_cons_ne x xs a hax, firstIdx_cons_ne x xs b hbx]
        exact Nat.succ_lt_succ hab

/-- Specification of `pyMaxByCount` on a nonempty label list: the
result occurs in the list, its count is maximal, and among the labels
of maximal count it is the one whose first occurrence is earliest. -/
theorem pyMax_spec (L : List String) (hL : L ≠ []) :
    pyMaxByCount L ∈ L ∧
    (∀ l ∈ L, L.count l ≤ L.count (pyMaxByCount L)) ∧
    (∀ l ∈ L, L.count l = L.count (pyMaxByCount L) →
      firstIdx L (pyMaxByCount L) ≤ firstIdx L l) := by
  have hmemD : ∀ a, a ∈ dedupFirst L ↔ a ∈ L := by
    intro a
    rw [dedupFirst, mem_dedupFirstAux]
    simp
  obtain ⟨d, ds, hD⟩ : ∃ d ds, dedupFirst L = d :: ds := by
    cases hc : dedupFirst L with
    | nil =>
      exfalso
      cases L with
      | nil => exact hL rfl
      | cons x xs =>
        have : x ∈ dedupFirst (x :: xs) := (hmemD x).mpr (by simp)
        rw [hc] at this
        exact List.not_mem_nil x this
    | cons d ds => exact ⟨d, ds, rfl⟩
  have hpymax : pyMaxByCount L
      = ds.foldl (pyMaxStep (fun a => L.count a)) d := by
    rw [pyMaxByCount, hD]
  obtain ⟨ys, zs, hsplit, hys, hzs⟩ :=
    pyMax_split (fun a => L.count a) d ds
  rw [← hpymax] at hsplit hys hzs
  have hDsplit : dedupFirst L = ys ++ pyMaxByCount L :: zs := by
    rw [hD, hsplit]
  have hrL : pyMaxByCount L ∈ L := by
    rw [← hmemD, hDsplit]
    simp
  have hmax : ∀ l ∈ L, L.count l ≤ L.count (pyMaxByCount L) := by
    intro l hl
    have hld : l ∈ dedupFirst L := (hmemD l).mpr hl
    rw [hDsplit] at hld
    rcases List.mem_append.mp hld with hin | hin
    · exact le_of_lt (hys l hin)
    · rcases List.mem_cons.mp hin with rfl | hin
      · exact le_refl _
      · exact hzs l hin
  refine ⟨hrL, hmax, ?_⟩
  intro l hl heq
  have hpw := pairwise_firstIdx_dedupFirstAux L []
  rw [show dedupFirstAux [] L = dedupFirst L from rfl, hDsplit] at hpw
  have hld : l ∈ dedupFirst L := (hmemD l).mpr hl
  rw [hDsplit] at hld
  rcases List.mem_append.mp hld with hin | hin
  · exact absurd heq (ne_of_lt (hys l hin))
  · rcases List.mem_cons.mp hin with rfl | hin
    · exact le_refl _
    · have hpw2 := (List.pairwise_append.mp hpw).2.1
      exact le_of_lt ((List.pairwise_cons.mp hpw2).1 l hin)

/-! ### Claim C9: deterministic tie-break in pattern analysis -/

/-- Claim C9: on a nonempty match list the suggested assignee and the
suggested group each occur among the corresponding labels, have maximal
count, and among the labels of equal maximal count are the ones whose
first occurrence is earliest in the match ordering (the label of the
most similar incident); being a pure function of the input list, the
choice is deterministic. -/
theorem C9_tie_break (ms : List Match) (h : ms ≠ []) :
    ((analyze_historical_patterns ms).suggested_assignee
        ∈ ms.map Match.assignee ∧
     (∀ l ∈ ms.map Match.assignee, (ms.map Match.assignee).count l
        ≤ (ms.map Match.assignee).count
            (analyze_historical_patterns ms).suggested_assignee) ∧
     (∀ l ∈ ms.map Match.assignee, (ms.map Match.assignee).count l
        = (ms.map Match.assignee).count
            (analyze_historical_patterns ms).suggested_assignee →
        firstIdx (ms.map Match.assignee)
            (analyze_historical_patterns ms).suggested_assignee
          ≤ firstIdx (ms.map Match.assignee) l)) ∧
    ((analyze_historical_patterns ms).suggested_group
        ∈ ms.map Match.group ∧
     (∀ l ∈ ms.map Match.group, (ms.map Match.group).count l
        ≤ (ms.map Match.group).count
            (analyze_historical_patterns ms).suggested_group) ∧
     (∀ l ∈ ms.map Match.group, (ms.map Match.group).count l
        = (ms.map Match.group).count
            (analyze_historical_patterns ms).suggested_group →
        firstIdx (ms.map Match.group)
            (analyze_historical_patterns ms).suggested_group
          ≤ firstIdx (ms.map Match.group) l)) := by
  have hA : (analyze_historical_patterns ms).suggested_assignee
      = pyMaxByCount (ms.map Match.assignee) := by
    simp [analyze_historical_patterns, List.isEmpty_iff, h]
  have hG : (analyze_historical_patterns ms).suggested_group
      = pyMaxByCount (ms.map Match.group) := by
    simp [analyze_historical_patterns, List.isEmpty_iff, h]
  rw [hA, hG]
  exact ⟨pyMax_spec (ms.map Match.assignee) (by simpa using h),
    pyMax_spec (ms.map Match.group) (by simpa using h)⟩

/-- Witness for `C9_tie_break` on two matches with tied assignee
counts: the suggestion is `alice`, the assignee of the more similar
incident, whose first occurrence is no later than that of `bob`. -/
theorem C9_witness :
    (analyze_historical_patterns msW).suggested_assignee = "alice" ∧
    firstIdx (msW.map Match.assignee)
        (analyze_historical_patterns msW).suggested_assignee
      ≤ firstIdx (msW.map Match.assignee) "bob" := by
  have hs : (analyze_historical_patterns msW).suggested_assignee
      = "alice" := by
    simp +decide [analyze_historical_patterns, msW, pyMaxByCount,
      dedupFirst, dedupFirstAux, pyMaxStep, List.count_cons]
  refine ⟨hs, ?_⟩
  refine (C9_tie_break msW (by simp [msW])).1.2.2 "bob" (by simp [msW]) ?_
  rw [hs]
  simp +decide [msW, List.count_cons]

/-! ### Claim C2: ranking order and determinism -/

/-- Claim C2 (counterexample): the claim that equal-score matches
appear in ascending `INC` order and that identical inputs yield the
identical ordered sequence is false: for the store `[rowA, rowB]`
(identical vectors, hence tied scores 1.0) and query `[1, 0]`, both
`[rowB, rowA]` — equal scores in descending id order, since
`"A" < "B"` — and `[rowA, rowB]` are outcomes the query
`ORDER BY similarity DESC LIMIT 5` may return: the SQL has no
secondary sort key, so neither the tie order nor cross-call
reproducibility is fixed. -/
theorem C2_counterexample :
    SearchOutcome [rowA, rowB] [1, 0] 0 5 [rowB, rowA] ∧
    SearchOutcome [rowA, rowB] [1, 0] 0 5 [rowA, rowB] ∧
    rowA.inc < rowB.inc := by
  have herr : ∀ r ∈ ([rowA, rowB] : List Row),
      scoreRow [1, 0] r ≠ SimResult.err := by
    intro r hr
    rcases List.mem_cons.mp hr with rfl | hr
    · norm_num [scoreRow, cosine_similarity, normSq, dot, rowA]; decide
    · rcases List.mem_cons.mp hr with rfl | hr
      · norm_num [scoreRow, cosine_similarity, normSq, dot, rowB]; decide
      · exact absurd hr (List.not_mem_nil r)
  refine ⟨⟨herr, [rowB, rowA], List.Perm.swap rowB rowA [], ?_, ?_⟩,
    ⟨herr, [rowA, rowB], List.Perm.refl _, ?_, ?_⟩, ?_⟩
  · norm_num [List.pairwise_cons, rowGe, simGeB, scoreRow,
      cosine_similarity, scoreGe, normSq, dot, rowA, rowB]
  · norm_num [geThreshold, scoreRow, cosine_similarity, ratGeSqrt,
      normSq, dot, rowA, rowB]
  · norm_num [List.pairwise_cons, rowGe, simGeB, scoreRow,
      cosine_similarity, scoreGe, normSq, dot, rowA, rowB]
  · norm_num [geThreshold, scoreRow, cosine_similarity, ratGeSqrt,
      normSq, dot, rowA, rowB]
  · show ("A" : String) < "B"
    rw [String.lt_iff_toList_lt]
    exact List.Lex.rel (by decide)

/-- Claim C2 (amended): every outcome the query may return is sorted
by similarity descending, holds at most `limit` rows, and contains only
store rows passing the threshold filter — but the order among tied
scores and the choice between repeated calls are left open by the
code. -/
theorem C2_amended (store : List Row) (q : List ℚ) (t : ℚ) (k : ℕ)
    (out : List Row) (h : SearchOutcome store q t k out) :
    List.Pairwise (rowGe q) out ∧ out.length ≤ k ∧
    ∀ r ∈ out, geThreshold (scoreRow q r) t = true ∧ r ∈ store := by
  obtain ⟨-, p, hperm, hsort, hout⟩ := h
  subst hout
  refine ⟨?_, ?_, ?_⟩
  · exact hsort.sublist ((List.filter_sublist _).trans (List.take_sublist _ _))
  · exact (List.length_filter_le _ _).trans (List.length_take_le _ _)
  · intro r hr
    have hm := List.mem_filter.mp hr
    exact ⟨by simpa using hm.2,
      hperm.mem_iff.mpr (List.mem_of_mem_take hm.1)⟩

/-- Witness for `C2_amended` at the two-row store with tied scores. -/
theorem C2_witness :
    List.Pairwise (rowGe [1, 0]) [rowA, rowB] ∧
    ([rowA, rowB] : List Row).length ≤ 5 := by
  have h : SearchOutcome [rowA, rowB] [1, 0] 0 5 [rowA, rowB] := by
    refine ⟨?_, [rowA, rowB], List.Perm.refl _, ?_, ?_⟩
    · intro r hr
      rcases List.mem_cons.mp hr with rfl | hr
      · norm_num [scoreRow, cosine_similarity, normSq, dot, rowA]; decide
      · rcases List.mem_cons.mp hr with rfl | hr
        · norm_num [scoreRow, cosine_similarity, normSq, dot, rowB]; decide
        · exact absurd hr (List.not_mem_nil r)
    · norm_num [List.pairwise_cons, rowGe, simGeB, scoreRow,
        cosine_similarity, scoreGe, normSq, dot, rowA, rowB]
    · norm_num [geThreshold, scoreRow, cosine_similarity, ratGeSqrt,
        normSq, dot, rowA, rowB]
  exact ⟨(C2_amended _ _ _ _ _ h).1, (C2_amended _ _ _ _ _ h).2.1⟩

/-! ### Claim C8: query parameter validation -/

/-- Claim C8 (counterexample): the claim that an out-of-range threshold
or limit raises an immediate error is false: with threshold `2`
(outside `[-1, 1]`) the query completes normally and returns the empty
list (every row filtered out), with limit `0` (below `1`) it completes
normally and returns the empty list, and the web layer silently
substitutes the configured default `0.3` for an unparseable threshold
instead of raising. -/
theorem C8_counterexample :
    SearchOutcome [rowS] [1] 2 5 [] ∧
    SearchOutcome [rowS] [1] (3 / 10) 0 [] ∧
    web_threshold ThresholdForm.unparseable = SIMILARITY_THRESHOLD := by
  have herr : ∀ r ∈ ([rowS] : List Row), scoreRow [1] r ≠ SimResult.err := by
    intro r hr
    rcases List.mem_cons.mp hr with rfl | hr
    · norm_num [scoreRow, cosine_similarity, normSq, dot, rowS]; decide
    · exact absurd hr (List.not_mem_nil r)
  refine ⟨⟨herr, [rowS], List.Perm.refl _, by simp, ?_⟩,
    ⟨herr, [rowS], List.Perm.refl _, by simp, by simp⟩, rfl⟩
  norm_num [geThreshold, scoreRow, cosine_similarity, ratGeSqrt,
    normSq, dot, rowS]

/-- Claim C8 (amended): `search_similar_incidents` performs no
parameter validation whatsoever: for every threshold and every limit —
in range or not — the query executes and returns a result (the
threshold is used unchanged as a filter bound, the limit is passed
straight to SQL `LIMIT`); the web layer replaces a missing or
unparseable threshold by the configured default and passes any parsed
value through unvalidated. -/
theorem C8_amended (t : ℚ) (k : ℕ) :
    (∃ out, SearchOutcome [rowS] [1] t k out) ∧
    web_threshold (ThresholdForm.value t) = t := by
  refine ⟨⟨(([rowS] : List Row).take k).filter
      (fun r => geThreshold (scoreRow [1] r) t), ?_, [rowS],
    List.Perm.refl _, by simp, rfl⟩, rfl⟩
  intro r hr
  rcases List.mem_cons.mp hr with rfl | hr
  · norm_num [scoreRow, cosine_similarity, normSq, dot, rowS]; decide
  · exact absurd hr (List.not_mem_nil r)

end IncUpdater
